import Mathlib

/-!
Verification of the tactile-map-generator core pipeline
(`src/tactile_map_generator.py`).

The pipeline works over shapely geometries and trimesh meshes.  Those two
libraries are external to the repository, so they are embedded abstractly:
`GeomOps G` collects the shapely operations the script calls on geometries of
type `G`, and `MeshOps G M` collects the trimesh operations it calls on meshes
of type `M`.  The script's own control flow (`process_geometries`,
`generate_3d_model`) is translated literally over these operations.
Properties of the library operations that a claim relies on are stated as
named predicates and appear as explicit hypotheses of the theorems; a concrete
executable instance (`CGeom`, further down) realises them, including a
Douglas-Peucker simplifier matching shapely's `simplify`.
-/

/-- Planar point with exact rational coordinates. -/
abbrev Pt : Type := ℚ × ℚ

/-- Shapely operations used by `process_geometries`, over a geometry type `G`:
`unary_union`, the `MultiPolygon` type test and its `.geoms` accessor,
`.area`, `.is_valid`, `.buffer(0)`, `simplify`, the `LineString` type test,
`len(.coords)`, and the `Polygon`/`LineString` constructors. -/
structure GeomOps (G : Type) where
  unary_union : List G → G
  isMultiPolygon : G → Bool
  geoms : G → List G
  area : G → ℚ
  is_valid : G → Bool
  buffer0 : G → G
  simplify : G → ℚ → G
  isLineString : G → Bool
  coordsLen : G → ℕ
  polygonOf : List Pt → G
  lineStringOf : List Pt → G

/-- Corners of the fallback building square, `Polygon([(0,0), (20,0), (20,20), (0,20)])`. -/
def fallbackSquare : List Pt := [(0,0), (20,0), (20,20), (0,20)]

/-- Coordinates of the fallback path, `LineString([(5,5), (15,15)])`. -/
def fallbackPath : List Pt := [(5,5), (15,15)]

/-- Python's `max(x :: xs, key := area)`: folds left, replacing the current
best only on a strictly greater key, so the first of several maximal
elements wins. -/
def pyMax {G : Type} (area : G → ℚ) (x : G) (xs : List G) : G :=
  xs.foldl (fun best y => if area best < area y then y else best) x

/-- Selection of the dominant part,
`max(all_buildings.geoms, key=lambda p: p.area)`.  Python's `max` raises on an
empty sequence; a shapely `MultiPolygon` always has at least one part, so the
empty case is unreachable and is totalised by returning the input geometry. -/
def selectDominant {G : Type} (ops : GeomOps G) (g : G) : G :=
  match ops.geoms g with
  | [] => g
  | p :: ps => pyMax ops.area p ps

/-- Buildings branch of `process_geometries` (lines 70-84): empty input gives
the fallback square; otherwise union all buildings, take the largest part of a
`MultiPolygon`, repair with `buffer(0)` if invalid, and simplify with
tolerance 2.0. -/
def process_buildings {G : Type} (ops : GeomOps G) (buildings : List G) : G :=
  if buildings.length = 0 then
    ops.polygonOf fallbackSquare
  else
    let all_buildings := ops.unary_union buildings
    let building_poly :=
      if ops.isMultiPolygon all_buildings then selectDominant ops all_buildings
      else all_buildings
    let building_poly :=
      if ¬ ops.is_valid building_poly then ops.buffer0 building_poly
      else building_poly
    ops.simplify building_poly 2

/-- Path filter of `process_geometries` (lines 92-96): keep an edge geometry
only if it is a `LineString` with at least 2 coordinates, simplify it with
tolerance 1.0, and keep the result only if it `is_valid`. -/
def filteredPaths {G : Type} (ops : GeomOps G) (edges : List G) : List G :=
  edges.filterMap (fun e =>
    if ops.isLineString e ∧ 2 ≤ ops.coordsLen e then
      let path := ops.simplify e 1
      if ops.is_valid path then some path else none
    else none)

/-- Paths branch of `process_geometries` (lines 89-100): filter and simplify
the edge geometries; if nothing survives, substitute the fallback path
`LineString([(5,5), (15,15)])`.  `graph = None` yields no edges. -/
def process_paths {G : Type} (ops : GeomOps G) (graph : Option (List G)) : List G :=
  let paths := match graph with
    | none => []
    | some edges => filteredPaths ops edges
  if paths.length = 0 then [ops.lineStringOf fallbackPath]
  else paths

/-- Exact 3-vector, for mesh centroids and translations. -/
abbrev V3 : Type := ℚ × ℚ × ℚ

/-- Componentwise vector addition. -/
def addV3 (a b : V3) : V3 := (a.1 + b.1, a.2.1 + b.2.1, a.2.2 + b.2.2)

/-- Componentwise vector negation, `-mesh.centroid`. -/
def negV3 (a : V3) : V3 := (-a.1, -a.2.1, -a.2.2)

/-- Trimesh operations used by `generate_3d_model`, over geometry type `G` and
mesh type `M`.  `extrude_polygon` and `buffer` return `none` where the library
call would raise (both sit inside `try` blocks in the source); the remaining
calls do not raise on the meshes this script builds. -/
structure MeshOps (G M : Type) where
  extrude_polygon : G → ℚ → Option M
  buffer : G → ℚ → Option G
  box : ℚ × ℚ × ℚ → M
  concatenate : List M → M
  is_empty : M → Bool
  centroid : M → V3
  apply_translation : M → V3 → M

/-- Building mesh step of `generate_3d_model` (lines 113-119): extrude the
footprint to height 10; on failure fall back to `box((20, 20, 10))`. -/
def buildingMesh {G M : Type} (mops : MeshOps G M) (building_poly : G) : M :=
  match mops.extrude_polygon building_poly 10 with
  | some m => m
  | none => mops.box (20, 20, 10)

/-- Per-path body of the loop in `generate_3d_model` (lines 124-130): buffer
the path by 0.5 and extrude to height 0.3; `none` means the `except` branch
was taken and the path contributes no mesh. -/
def pathStep {G M : Type} (mops : MeshOps G M) (path : G) : Option M :=
  match mops.buffer path (1/2) with
  | none => none
  | some path_2d => mops.extrude_polygon path_2d (3/10)

/-- Path meshes collected by the loop in `generate_3d_model` (lines 122-130):
failing paths are skipped, the rest contribute in order. -/
def pathMeshes {G M : Type} (mops : MeshOps G M) (paths : List G) : List M :=
  paths.filterMap (pathStep mops)

/-- Mesh combination of `generate_3d_model` (lines 133-136): concatenate the
building mesh with the path meshes, or keep the building mesh alone when no
path produced one. -/
def combinedMesh {G M : Type} (mops : MeshOps G M) (building_poly : G)
    (paths : List G) : M :=
  let building_mesh := buildingMesh mops building_poly
  let path_meshes := pathMeshes mops paths
  if path_meshes.length ≠ 0 then mops.concatenate (building_mesh :: path_meshes)
  else building_mesh

/-- Outcome of `generate_3d_model`: either the mesh passed to
`combined_mesh.export(output_file)`, or the `ValueError` raised before any
export happens. -/
inductive AssembleResult (M : Type) where
  | exported : M → AssembleResult M
  | error : String → AssembleResult M
deriving DecidableEq

/-- Full `generate_3d_model` (lines 108-149): build the meshes, combine them,
raise `ValueError("Final mesh is empty!")` if the combined mesh is empty, else
recentre at the centroid and export. -/
def generate_3d_model {G M : Type} (mops : MeshOps G M) (building_poly : G)
    (paths : List G) : AssembleResult M :=
  let combined_mesh := combinedMesh mops building_poly paths
  if mops.is_empty combined_mesh then
    .error "Final mesh is empty!"
  else
    .exported (mops.apply_translation combined_mesh
      (negV3 (mops.centroid combined_mesh)))

/-!
Concrete executable geometry.  Shapely's `simplify` is the GEOS
Douglas-Peucker simplifier (the spec calls it "removing vertices within the
tolerance of the simplified line (a Douglas-Peucker-style tolerance)"); it is
modelled here exactly on exact rational coordinates: recursively keep the
point farthest from the current chord while its distance exceeds the
tolerance.  Areas are shoelace areas.  This instance supplies concrete inputs
for witnesses and counterexamples.
-/

/-- Pointwise difference of two points. -/
def subPt (a b : Pt) : Pt := (a.1 - b.1, a.2 - b.2)

/-- Two-dimensional cross product. -/
def crossPt (a b : Pt) : ℚ := a.1 * b.2 - a.2 * b.1

/-- Dot product. -/
def dotPt (a b : Pt) : ℚ := a.1 * b.1 + a.2 * b.2

/-- Squared euclidean distance between two points. -/
def distSq (a b : Pt) : ℚ := dotPt (subPt a b) (subPt a b)

/-- Squared distance from point `p` to the segment `a`-`b` (the distance GEOS
uses when selecting the farthest point in Douglas-Peucker).  `Rat.div` is used
directly so the definition evaluates by kernel reduction. -/
def segDistSq (a b p : Pt) : ℚ :=
  if a = b then distSq p a
  else
    let t := Rat.div (dotPt (subPt p a) (subPt b a)) (distSq b a)
    if t ≤ 0 then distSq p a
    else if 1 ≤ t then distSq p b
    else distSq p (a.1 + t * (b.1 - a.1), a.2 + t * (b.2 - a.2))

/-- Index and squared distance of the point farthest from segment `a`-`b`,
scanning left to right and keeping the first maximum. -/
def farthestFrom (a b : Pt) : List Pt → ℕ → ℕ × ℚ → ℕ × ℚ
  | [], _, best => best
  | p :: ps, i, best =>
      farthestFrom a b ps (i + 1)
        (if best.2 < segDistSq a b p then (i, segDistSq a b p) else best)

/-- Douglas-Peucker on the open section from `a` through `mid` to `b`,
returning the kept points excluding `b`.  If every interior point is within
the tolerance of chord `a`-`b`, only `a` survives; otherwise split at the
farthest interior point and recurse.  `fuel` bounds the recursion depth; any
value at least `mid.length + 1` is enough, so the fuel-exhausted branch is
unreachable for the initial call. -/
def dpSection (tolSq : ℚ) : ℕ → Pt → List Pt → Pt → List Pt
  | 0, a, _, _ => [a]
  | fuel + 1, a, mid, b =>
      match mid with
      | [] => [a]
      | m :: ms =>
          let best := farthestFrom a b ms 1 (0, segDistSq a b m)
          if best.2 ≤ tolSq then [a]
          else
            dpSection tolSq fuel a (mid.take best.1) (mid.getD best.1 a) ++
              dpSection tolSq fuel (mid.getD best.1 a) (mid.drop (best.1 + 1)) b

/-- Douglas-Peucker simplification of a polygon ring (stored without the
closing point): simplify the closed polyline that starts and ends at the
first vertex. -/
def dpRing (tolSq : ℚ) (ring : List Pt) : List Pt :=
  match ring with
  | [] => []
  | a :: rest => dpSection tolSq (ring.length + 1) a rest a

/-- Douglas-Peucker simplification of an open polyline. -/
def dpLine (tolSq : ℚ) (pts : List Pt) : List Pt :=
  match pts, pts.getLast? with
  | [], _ => []
  | _ :: _, none => []
  | a :: rest, some b => dpSection tolSq (pts.length + 1) a rest.dropLast b ++ [b]

/-- Twice the signed shoelace area: sum of cross products of consecutive
vertices, closing back to `first`. -/
def shoelaceAux (first : Pt) : Pt → List Pt → ℚ
  | p, [] => crossPt p first
  | p, q :: rest => crossPt p q + shoelaceAux first q rest

/-- Absolute value of a rational, written out so it evaluates by kernel
reduction. -/
def qabs (q : ℚ) : ℚ := if q < 0 then -q else q

/-- Shoelace area of a polygon ring (absolute value of half the signed sum). -/
def ringArea (ring : List Pt) : ℚ :=
  match ring with
  | [] => 0
  | p :: rest => Rat.div (qabs (shoelaceAux p p rest)) 2

/-- Concrete geometry values: a polygon (outer ring, no holes), a
multi-polygon, or a line string. -/
inductive CGeom where
  | poly : List Pt → CGeom
  | mpoly : List (List Pt) → CGeom
  | line : List Pt → CGeom
deriving DecidableEq

/-- Area of a concrete geometry: shoelace area of polygons, sum over the
parts of a multi-polygon, zero for curves. -/
def cArea : CGeom → ℚ
  | .poly r => ringArea r
  | .mpoly rs => (rs.map ringArea).sum
  | .line _ => 0

/-- Douglas-Peucker simplification of a concrete geometry with tolerance `t`
(compared via squared distances, hence `t * t`). -/
def cSimplify (g : CGeom) (t : ℚ) : CGeom :=
  match g with
  | .poly r => .poly (dpRing (t * t) r)
  | .mpoly rs => .mpoly (rs.map (dpRing (t * t)))
  | .line ps => .line (dpLine (t * t) ps)

/-- Concrete `GeomOps` instance.  `unary_union` of a single geometry is that
geometry, as in shapely; unions of several geometries are collected as a
multi-polygon of their rings (the claims evaluate it on singletons only).
`is_valid` is `true`: every concrete geometry used in witnesses and
counterexamples is simple, matching shapely's verdict on them. -/
def cOps : GeomOps CGeom where
  unary_union gs :=
    match gs with
    | [g] => g
    | gs => .mpoly (gs.filterMap (fun g => match g with | .poly r => some r | _ => none))
  isMultiPolygon g := match g with | .mpoly _ => true | _ => false
  geoms g := match g with | .mpoly rs => rs.map .poly | _ => [g]
  area := cArea
  is_valid _ := true
  buffer0 g := g
  simplify := cSimplify
  isLineString g := match g with | .line _ => true | _ => false
  coordsLen g :=
    match g with
    | .line ps => ps.length
    | .poly r => r.length + 1
    | .mpoly rs => (rs.map List.length).sum
  polygonOf := .poly
  lineStringOf := .line

/-- Concave pentagon footprint: a 10×10 square with the vertex `(5,9)`
denting the top edge inward; simple, area `95`. -/
def dentedPentagon : CGeom := .poly [(0,0), (10,0), (10,10), (5,9), (0,10)]

/-- Variant of the concrete instance whose simplification is the identity;
it satisfies every contract below, including the area-non-increase conditions
that Douglas-Peucker violates. -/
def idOps : GeomOps CGeom := { cOps with simplify := fun g _ => g }

/-- Concrete multi-part curve constructor is also needed: shapely edges can be
`MultiLineString`s, which fail the `isinstance(..., LineString)` test. -/
def mlineOf (parts : List (List Pt)) : CGeom := .mpoly parts

/-- Concrete mesh: the state `generate_3d_model` observes — a centroid
position and an emptiness flag. -/
structure CMesh where
  at3 : V3
  empty : Bool
deriving DecidableEq

/-- Concrete `MeshOps` instance for witnesses: extrusion succeeds exactly on
polygons with at least 3 ring vertices and yields a non-empty mesh whose
centroid sits at half the extrusion height; `buffer` turns any geometry into
its polygon hull (never raises, as shapely's positive buffer); concatenation
averages nothing and is empty only if all parts are. -/
def cmops : MeshOps CGeom CMesh where
  extrude_polygon g h :=
    match g with
    | .poly r => if r.length < 3 then none else some ⟨(0, 0, Rat.div h 2), false⟩
    | _ => none
  buffer g _ :=
    match g with
    | .line ps => some (.poly ps)
    | g => some g
  box d := ⟨(0, 0, Rat.div d.2.2 2), false⟩
  concatenate ms := ⟨(ms.map CMesh.at3).foldl addV3 (0, 0, 0), ms.all CMesh.empty⟩
  is_empty m := m.empty
  centroid m := m.at3
  apply_translation m v := ⟨addV3 m.at3 v, m.empty⟩

/-!
Library contracts: properties of the shapely/trimesh operations that
individual claims rely on, stated as named predicates.  Each holds of the
real library except where a claim is refuted precisely because it does not.
-/

/-- Contract `BufferRepairs`: `buffer(0)` returns a valid geometry (the
zero-buffer repair idiom). -/
def BufferRepairs {G : Type} (ops : GeomOps G) : Prop :=
  ∀ g, ops.is_valid (ops.buffer0 g) = true

/-- Contract `SimplifyPreservesValidity`: simplifying a valid geometry keeps
it valid (shapely's `simplify` preserves topology by default). -/
def SimplifyPreservesValidity {G : Type} (ops : GeomOps G) : Prop :=
  ∀ g t, ops.is_valid g = true → ops.is_valid (ops.simplify g t) = true

/-- Condition `SimplifyAreaLe`: simplification never increases area.
Douglas-Peucker simplification does not satisfy this in general — cutting off
a concave vertex enlarges the polygon — which is what refutes claim C1. -/
def SimplifyAreaLe {G : Type} (ops : GeomOps G) : Prop :=
  ∀ g t, ops.area (ops.simplify g t) ≤ ops.area g

/-- Condition `BufferAreaLe`: the zero-buffer repair never increases area. -/
def BufferAreaLe {G : Type} (ops : GeomOps G) : Prop :=
  ∀ g, ops.area (ops.buffer0 g) ≤ ops.area g

/-- Contract `PartsAreaLe`: each part of a geometry has at most the area of
the whole (a multi-polygon's area is the sum of its parts). -/
def PartsAreaLe {G : Type} (ops : GeomOps G) : Prop :=
  ∀ g p, p ∈ ops.geoms g → ops.area p ≤ ops.area g

/-- Contract `CentroidTranslate`: translating a mesh translates its centroid
by the same vector. -/
def CentroidTranslate {G M : Type} (mops : MeshOps G M) : Prop :=
  ∀ m v, mops.centroid (mops.apply_translation m v) = addV3 (mops.centroid m) v

/-!
Helper lemmas.
-/

theorem addV3_negV3 (a : V3) : addV3 a (negV3 a) = (0, 0, 0) := by
  obtain ⟨x, y, z⟩ := a
  simp [addV3, negV3]

theorem ratDiv_eq_div (a b : ℚ) : Rat.div a b = a / b := rfl

theorem qabs_nonneg (q : ℚ) : 0 ≤ qabs q := by
  unfold qabs
  split <;> linarith

theorem ringArea_nonneg (r : List Pt) : 0 ≤ ringArea r := by
  unfold ringArea
  split
  · exact le_refl 0
  · rw [ratDiv_eq_div]
    exact div_nonneg (qabs_nonneg _) (by norm_num)

/-- Python's `max` returns the first of the maximal elements: the scanned
list splits as `pre ++ max :: post` with everything in `pre` strictly
smaller and everything in the list at most the maximum. -/
theorem pyMax_split {G : Type} (area : G → ℚ) (x : G) (xs : List G) :
    ∃ pre post, x :: xs = pre ++ pyMax area x xs :: post ∧
      (∀ q ∈ pre, area q < area (pyMax area x xs)) ∧
      (∀ q ∈ x :: xs, area q ≤ area (pyMax area x xs)) := by
  induction xs generalizing x with
  | nil =>
      refine ⟨[], [], rfl, by simp, ?_⟩
      intro q hq
      simp only [List.mem_singleton] at hq
      simp [hq, pyMax]
  | cons y ys ih =>
      by_cases hxy : area x < area y
      · have hm : pyMax area x (y :: ys) = pyMax area y ys := by
          simp [pyMax, hxy]
        obtain ⟨pre, post, hsplit, hpre, hall⟩ := ih y
        rw [hm]
        have hym : area y ≤ area (pyMax area y ys) :=
          hall y (List.mem_cons_self y ys)
        refine ⟨x :: pre, post, by simp [hsplit], ?_, ?_⟩
        · intro q hq
          rcases List.mem_cons.mp hq with hq | hq
          · subst hq; exact lt_of_lt_of_le hxy hym
          · exact hpre q hq
        · intro q hq
          rcases List.mem_cons.mp hq with hq | hq
          · subst hq; exact le_of_lt (lt_of_lt_of_le hxy hym)
          · exact hall q hq
      · have hm : pyMax area x (y :: ys) = pyMax area x ys := by
          simp [pyMax, hxy]
        obtain ⟨pre, post, hsplit, hpre, hall⟩ := ih x
        rw [hm]
        have hyx : area y ≤ area x := le_of_not_lt hxy
        have hxm : area x ≤ area (pyMax area x ys) :=
          hall x (List.mem_cons_self x ys)
        cases pre with
        | nil =>
            simp only [List.nil_append] at hsplit
            have hx : pyMax area x ys = x := (List.cons.injEq _ _ _ _ ▸ hsplit).1.symm
            refine ⟨[], y :: ys, by simp [hx], by simp, ?_⟩
            intro q hq
            rcases List.mem_cons.mp hq with hq | hq
            · subst hq; exact hxm
            · rcases List.mem_cons.mp hq with hq | hq
              · subst hq; exact le_trans hyx hxm
              · exact hall q (List.mem_cons_of_mem x hq)
        | cons p pre2 =>
            have hinj : p = x ∧ ys = pre2 ++ pyMax area x ys :: post := by
              have h2 := hsplit
              simp only [List.cons_append, List.cons.injEq] at h2
              exact ⟨h2.1.symm, h2.2⟩
            obtain ⟨hp, hys⟩ := hinj
            have hxlt : area x < area (pyMax area x ys) := by
              have := hpre p (List.mem_cons_self p pre2)
              rwa [hp] at this
            refine ⟨x :: y :: pre2, post, by simp only [List.cons_append, ← hys], ?_, ?_⟩
            · intro q hq
              rcases List.mem_cons.mp hq with hq | hq
              · subst hq; exact hxlt
              · rcases List.mem_cons.mp hq with hq | hq
                · subst hq; exact lt_of_le_of_lt hyx hxlt
                · exact hpre q (List.mem_cons_of_mem p hq)
            · intro q hq
              rcases List.mem_cons.mp hq with hq | hq
              · subst hq; exact hxm
              · rcases List.mem_cons.mp hq with hq | hq
                · subst hq; exact le_trans hyx hxm
                · exact hall q (List.mem_cons_of_mem x hq)

/-- Element returned by `pyMax` is in the scanned list. -/
theorem pyMax_mem {G : Type} (area : G → ℚ) (x : G) (xs : List G) :
    pyMax area x xs ∈ x :: xs := by
  obtain ⟨pre, post, hsplit, -, -⟩ := pyMax_split area x xs
  rw [hsplit]
  exact List.mem_append_right pre (List.mem_cons_self _ _)

/-- Dominant-part selection never leaves the parts list, and under the
parts-area contract its area is bounded by the area of the whole. -/
theorem selectDominant_area_le {G : Type} (ops : GeomOps G)
    (hparts : PartsAreaLe ops) (g : G) :
    ops.area (selectDominant ops g) ≤ ops.area g := by
  unfold selectDominant
  cases hg : ops.geoms g with
  | nil => exact le_refl _
  | cons p ps =>
      exact hparts g _ (by rw [hg]; exact pyMax_mem ops.area p ps)

/-- Repair-then-simplify step preserves validity under the library
contracts: a valid polygon stays valid through simplification, an invalid
one is first repaired by the zero-buffer. -/
theorem cleanStep_valid {G : Type} (ops : GeomOps G) (hrep : BufferRepairs ops)
    (hpv : SimplifyPreservesValidity ops) (g : G) :
    ops.is_valid (ops.simplify (if ¬ ops.is_valid g then ops.buffer0 g else g) 2)
      = true := by
  by_cases hv : ops.is_valid g = true
  · rw [if_neg (not_not_intro hv)]
    exact hpv g 2 hv
  · rw [if_pos hv]
    exact hpv _ 2 (hrep g)

/-- Repair-then-simplify step does not increase area when neither the
simplification nor the zero-buffer does. -/
theorem cleanStep_area_le {G : Type} (ops : GeomOps G) (hsa : SimplifyAreaLe ops)
    (hba : BufferAreaLe ops) (g : G) :
    ops.area (ops.simplify (if ¬ ops.is_valid g then ops.buffer0 g else g) 2)
      ≤ ops.area g := by
  refine le_trans (hsa _ 2) ?_
  by_cases hv : ops.is_valid g = true
  · rw [if_neg (not_not_intro hv)]
  · rw [if_pos hv]
    exact hba g

/-- Parts-area contract holds of the concrete instance with identity
simplification: a multi-polygon's area is the sum of its parts' shoelace
areas, each of which is non-negative. -/
theorem idOps_partsAreaLe : PartsAreaLe idOps := by
  intro g p hp
  cases g with
  | mpoly rs =>
      have hg : idOps.geoms (CGeom.mpoly rs) = rs.map CGeom.poly := rfl
      rw [hg] at hp
      obtain ⟨r, hr, rfl⟩ := List.mem_map.mp hp
      show ringArea r ≤ (rs.map ringArea).sum
      refine List.single_le_sum (fun x hx => ?_) _ (List.mem_map_of_mem ringArea hr)
      obtain ⟨r2, hr2, rfl⟩ := List.mem_map.mp hx
      exact ringArea_nonneg r2
  | poly r =>
      have hg : idOps.geoms (CGeom.poly r) = [CGeom.poly r] := rfl
      rw [hg, List.mem_singleton] at hp
      subst hp
      exact le_refl _
  | line ps =>
      have hg : idOps.geoms (CGeom.line ps) = [CGeom.line ps] := rfl
      rw [hg, List.mem_singleton] at hp
      subst hp
      exact le_refl _

/-!
Claim theorems.
-/

/-- Claim C3: on an empty footprint collection the consolidator returns the
fixed fallback square with corners (0,0)-(20,20); that square's area is
exactly 400; and the fallback undergoes no union, repair, or simplification —
the result is the same for any instance that differs in those operations but
agrees on the polygon constructor. -/
theorem C3_empty_input_fallback_square {G : Type} (ops alt : GeomOps G)
    (hpoly : ops.polygonOf = alt.polygonOf) :
    process_buildings ops [] = ops.polygonOf fallbackSquare ∧
    process_buildings alt [] = process_buildings ops [] ∧
    ringArea fallbackSquare = 400 := by
  refine ⟨rfl, ?_, ?_⟩
  · show alt.polygonOf fallbackSquare = ops.polygonOf fallbackSquare
    rw [hpoly]
  · with_unfolding_all decide

/-- Witness for C3: the concrete instance, applied at the empty collection. -/
theorem C3_empty_input_fallback_square_witness :
    process_buildings cOps [] = cOps.polygonOf fallbackSquare ∧
    process_buildings cOps [] = process_buildings cOps [] ∧
    ringArea fallbackSquare = 400 :=
  C3_empty_input_fallback_square cOps cOps rfl

/-- Claim C4: the path stage never returns an empty collection, and when the
graph is missing or every edge entry is discarded, it returns exactly the
single fallback curve from (5,5) to (15,15). -/
theorem C4_paths_never_empty {G : Type} (ops : GeomOps G)
    (graph : Option (List G)) :
    process_paths ops graph ≠ [] ∧
    (∀ edges, graph = some edges → filteredPaths ops edges = [] →
      process_paths ops graph = [ops.lineStringOf fallbackPath]) ∧
    (graph = none → process_paths ops graph = [ops.lineStringOf fallbackPath]) := by
  refine ⟨?_, ?_, ?_⟩
  · unfold process_paths
    rcases graph with _ | edges
    · simp
    · dsimp only
      split
      · simp
      · next h => simpa [List.length_eq_zero] using h
  · rintro edges rfl hfe
    unfold process_paths
    simp [hfe]
  · rintro rfl
    rfl

/-- Witness for C4: a single degenerate one-point edge is discarded and the
fallback curve is substituted. -/
theorem C4_paths_never_empty_witness :
    process_paths cOps (some [CGeom.line [(7,7)]]) ≠ [] ∧
    (∀ edges, some [CGeom.line [(7,7)]] = some edges →
      filteredPaths cOps edges = [] →
      process_paths cOps (some [CGeom.line [(7,7)]])
        = [cOps.lineStringOf fallbackPath]) ∧
    (some [CGeom.line [(7,7)]] = none →
      process_paths cOps (some [CGeom.line [(7,7)]])
        = [cOps.lineStringOf fallbackPath]) :=
  C4_paths_never_empty cOps (some [CGeom.line [(7,7)]])

/-- Claim C5: when footprint extrusion fails, the building mesh is the
fallback box of size 20×20×10; the failure never propagates. -/
theorem C5_building_fallback_box {G M : Type} (mops : MeshOps G M)
    (building_poly : G) (hfail : mops.extrude_polygon building_poly 10 = none) :
    buildingMesh mops building_poly = mops.box (20, 20, 10) := by
  unfold buildingMesh
  rw [hfail]

/-- Witness for C5: extrusion of a degenerate (non-polygon) footprint fails
in the concrete mesh instance and the fallback box is produced. -/
theorem C5_building_fallback_box_witness :
    buildingMesh cmops (CGeom.line []) = cmops.box (20, 20, 10) :=
  C5_building_fallback_box cmops (CGeom.line []) rfl

/-- Claim C6: a path whose widen-or-extrude step fails is skipped — the
collected path meshes are exactly those of the remaining paths, and the whole
model generation is unchanged by the failing path's presence, so one bad path
never aborts the run. -/
theorem C6_failing_path_skipped {G M : Type} (mops : MeshOps G M) (p : G)
    (hfail : pathStep mops p = none) (building_poly : G) (xs ys : List G) :
    pathMeshes mops (xs ++ p :: ys) = pathMeshes mops (xs ++ ys) ∧
    generate_3d_model mops building_poly (xs ++ p :: ys) =
      generate_3d_model mops building_poly (xs ++ ys) := by
  have h1 : pathMeshes mops (xs ++ p :: ys) = pathMeshes mops (xs ++ ys) := by
    unfold pathMeshes
    simp [List.filterMap_append, List.filterMap_cons, hfail]
  refine ⟨h1, ?_⟩
  unfold generate_3d_model combinedMesh
  rw [h1]

/-- Witness for C6: an empty-coordinate path fails extrusion and is skipped,
leaving the run over the remaining path unchanged. -/
theorem C6_failing_path_skipped_witness :
    pathMeshes cmops ([CGeom.line [(0,0), (4,4)]] ++ CGeom.line [] :: []) =
      pathMeshes cmops ([CGeom.line [(0,0), (4,4)]] ++ []) ∧
    generate_3d_model cmops dentedPentagon
        ([CGeom.line [(0,0), (4,4)]] ++ CGeom.line [] :: []) =
      generate_3d_model cmops dentedPentagon ([CGeom.line [(0,0), (4,4)]] ++ []) :=
  C6_failing_path_skipped cmops (CGeom.line []) rfl dentedPentagon
    [CGeom.line [(0,0), (4,4)]] []

/-- Claim C10: an entry that is not a single LineString is discarded by the
path filter even when it carries two or more coordinates in total. -/
theorem C10_non_linestring_discarded {G : Type} (ops : GeomOps G) (e : G)
    (hnls : ops.isLineString e = false) (hlen : 2 ≤ ops.coordsLen e)
    (edges : List G) :
    filteredPaths ops (e :: edges) = filteredPaths ops edges := by
  unfold filteredPaths
  rw [List.filterMap_cons]
  simp [hnls]

/-- Witness for C10: a two-part curve with four coordinates in total is
discarded. -/
theorem C10_non_linestring_discarded_witness :
    filteredPaths cOps (mlineOf [[(0,0), (5,5)], [(5,5), (9,9)]]
        :: [CGeom.line [(1,1), (2,2)]]) =
      filteredPaths cOps [CGeom.line [(1,1), (2,2)]] :=
  C10_non_linestring_discarded cOps (mlineOf [[(0,0), (5,5)], [(5,5), (9,9)]])
    rfl (by decide) [CGeom.line [(1,1), (2,2)]]

/-- Claim C2: the assembler raises exactly when the combined mesh is empty,
the raised message is the single `ValueError` of the code, and an export
happens only when the emptiness check passes — nothing is written when it
raises. -/
theorem C2_empty_mesh_is_only_error {G M : Type} (mops : MeshOps G M)
    (building_poly : G) (paths : List G) :
    (generate_3d_model mops building_poly paths = .error "Final mesh is empty!" ↔
      mops.is_empty (combinedMesh mops building_poly paths) = true) ∧
    (∀ msg, generate_3d_model mops building_poly paths = .error msg →
      msg = "Final mesh is empty!") ∧
    (∀ m, generate_3d_model mops building_poly paths = .exported m →
      mops.is_empty (combinedMesh mops building_poly paths) = false) := by
  cases h : mops.is_empty (combinedMesh mops building_poly paths) with
  | true => simp [generate_3d_model, h]
  | false => simp [generate_3d_model, h]

/-- Witness for C2 at the concrete instances: a pentagon footprint with no
paths assembles a non-empty mesh, so no error is raised. -/
theorem C2_empty_mesh_is_only_error_witness :
    (generate_3d_model cmops dentedPentagon [] = .error "Final mesh is empty!" ↔
      cmops.is_empty (combinedMesh cmops dentedPentagon []) = true) ∧
    (∀ msg, generate_3d_model cmops dentedPentagon [] = .error msg →
      msg = "Final mesh is empty!") ∧
    (∀ m, generate_3d_model cmops dentedPentagon [] = .exported m →
      cmops.is_empty (combinedMesh cmops dentedPentagon []) = false) :=
  C2_empty_mesh_is_only_error cmops dentedPentagon []

/-- Claim C7: when the union of a non-empty footprint collection is a
multi-polygon, the part the consolidator selects is a part of maximal area,
and it is the first-encountered one among equals: the parts list splits as
`pre ++ selected :: post` with every part in `pre` of strictly smaller area;
the selected part is then what the repair-and-simplify steps receive. -/
theorem C7_dominant_part_selection {G : Type} (ops : GeomOps G)
    (buildings : List G) (hne : buildings ≠ [])
    (hmp : ops.isMultiPolygon (ops.unary_union buildings) = true)
    (hg : ops.geoms (ops.unary_union buildings) ≠ []) :
    (∃ pre post,
      ops.geoms (ops.unary_union buildings)
        = pre ++ selectDominant ops (ops.unary_union buildings) :: post ∧
      (∀ q ∈ pre,
        ops.area q < ops.area (selectDominant ops (ops.unary_union buildings))) ∧
      (∀ q ∈ ops.geoms (ops.unary_union buildings),
        ops.area q ≤ ops.area (selectDominant ops (ops.unary_union buildings)))) ∧
    process_buildings ops buildings =
      ops.simplify
        (if ¬ ops.is_valid (selectDominant ops (ops.unary_union buildings)) then
          ops.buffer0 (selectDominant ops (ops.unary_union buildings))
        else selectDominant ops (ops.unary_union buildings)) 2 := by
  have hlen : ¬ buildings.length = 0 := by
    simpa [List.length_eq_zero] using hne
  constructor
  · cases hgs : ops.geoms (ops.unary_union buildings) with
    | nil => exact absurd hgs hg
    | cons p ps =>
        have hsel : selectDominant ops (ops.unary_union buildings)
            = pyMax ops.area p ps := by
          unfold selectDominant
          rw [hgs]
        rw [hsel]
        exact pyMax_split ops.area p ps
  · unfold process_buildings
    rw [if_neg hlen]
    dsimp only
    rw [if_pos hmp]

/-- Witness for C7: two disjoint squares union to a two-part multi-polygon
and the consolidator picks the larger, first part. -/
theorem C7_dominant_part_selection_witness :
    (∃ pre post,
      cOps.geoms (cOps.unary_union
          [CGeom.poly [(0,0), (4,0), (4,4), (0,4)],
           CGeom.poly [(6,0), (7,0), (7,1), (6,1)]])
        = pre ++ selectDominant cOps (cOps.unary_union
            [CGeom.poly [(0,0), (4,0), (4,4), (0,4)],
             CGeom.poly [(6,0), (7,0), (7,1), (6,1)]]) :: post ∧
      (∀ q ∈ pre,
        cOps.area q < cOps.area (selectDominant cOps (cOps.unary_union
            [CGeom.poly [(0,0), (4,0), (4,4), (0,4)],
             CGeom.poly [(6,0), (7,0), (7,1), (6,1)]]))) ∧
      (∀ q ∈ cOps.geoms (cOps.unary_union
            [CGeom.poly [(0,0), (4,0), (4,4), (0,4)],
             CGeom.poly [(6,0), (7,0), (7,1), (6,1)]]),
        cOps.area q ≤ cOps.area (selectDominant cOps (cOps.unary_union
            [CGeom.poly [(0,0), (4,0), (4,4), (0,4)],
             CGeom.poly [(6,0), (7,0), (7,1), (6,1)]])))) ∧
    process_buildings cOps
        [CGeom.poly [(0,0), (4,0), (4,4), (0,4)],
         CGeom.poly [(6,0), (7,0), (7,1), (6,1)]] =
      cOps.simplify
        (if ¬ cOps.is_valid (selectDominant cOps (cOps.unary_union
            [CGeom.poly [(0,0), (4,0), (4,4), (0,4)],
             CGeom.poly [(6,0), (7,0), (7,1), (6,1)]])) then
          cOps.buffer0 (selectDominant cOps (cOps.unary_union
            [CGeom.poly [(0,0), (4,0), (4,4), (0,4)],
             CGeom.poly [(6,0), (7,0), (7,1), (6,1)]]))
        else selectDominant cOps (cOps.unary_union
          [CGeom.poly [(0,0), (4,0), (4,4), (0,4)],
           CGeom.poly [(6,0), (7,0), (7,1), (6,1)]])) 2 :=
  C7_dominant_part_selection cOps
    [CGeom.poly [(0,0), (4,0), (4,4), (0,4)],
     CGeom.poly [(6,0), (7,0), (7,1), (6,1)]]
    (by decide) rfl (by decide)

/-- Claim C8: under the centroid-translation contract of the mesh library, a
non-empty combined mesh is exported with its centroid translated exactly to
the origin. -/
theorem C8_model_centered_at_origin {G M : Type} (mops : MeshOps G M)
    (hct : CentroidTranslate mops) (building_poly : G) (paths : List G)
    (hne : mops.is_empty (combinedMesh mops building_poly paths) = false) :
    ∃ m, generate_3d_model mops building_poly paths = .exported m ∧
      mops.centroid m = (0, 0, 0) := by
  have hres : generate_3d_model mops building_poly paths =
      .exported (mops.apply_translation (combinedMesh mops building_poly paths)
        (negV3 (mops.centroid (combinedMesh mops building_poly paths)))) := by
    simp only [generate_3d_model]
    rw [hne]
    simp
  refine ⟨_, hres, ?_⟩
  rw [hct]
  exact addV3_negV3 _

/-- Witness for C8: the concrete pentagon run exports a model centred at the
origin. -/
theorem C8_model_centered_at_origin_witness :
    ∃ m, generate_3d_model cmops dentedPentagon [] = .exported m ∧
      cmops.centroid m = (0, 0, 0) :=
  C8_model_centered_at_origin cmops (fun _ _ => rfl) dentedPentagon [] rfl

/-- Claim C9: an entry survives the path filter iff it is a LineString with
at least two coordinates whose tolerance-1.0 simplification is valid, and its
contribution is exactly that simplification; consequently (the fallback curve
being valid, as it is in shapely) every curve in the output is valid. -/
theorem C9_path_filter_characterisation {G : Type} (ops : GeomOps G)
    (edges : List G)
    (hfb : ops.is_valid (ops.lineStringOf fallbackPath) = true) :
    (∀ p, p ∈ filteredPaths ops edges ↔
      ∃ e ∈ edges, ops.isLineString e = true ∧ 2 ≤ ops.coordsLen e ∧
        p = ops.simplify e 1 ∧ ops.is_valid p = true) ∧
    (∀ p ∈ process_paths ops (some edges), ops.is_valid p = true) := by
  have hchar : ∀ p, p ∈ filteredPaths ops edges ↔
      ∃ e ∈ edges, ops.isLineString e = true ∧ 2 ≤ ops.coordsLen e ∧
        p = ops.simplify e 1 ∧ ops.is_valid p = true := by
    intro p
    unfold filteredPaths
    rw [List.mem_filterMap]
    constructor
    · rintro ⟨e, he, hsome⟩
      by_cases hc : ops.isLineString e = true ∧ 2 ≤ ops.coordsLen e
      · rw [if_pos hc] at hsome
        dsimp only at hsome
        by_cases hv : ops.is_valid (ops.simplify e 1) = true
        · rw [if_pos hv] at hsome
          obtain rfl := Option.some.inj hsome
          exact ⟨e, he, hc.1, hc.2, rfl, hv⟩
        · rw [if_neg hv] at hsome
          exact absurd hsome (Option.noConfusion)
      · rw [if_neg hc] at hsome
        exact absurd hsome (Option.noConfusion)
    · rintro ⟨e, he, h1, h2, rfl, hv⟩
      refine ⟨e, he, ?_⟩
      rw [if_pos ⟨h1, h2⟩]
      dsimp only
      rw [if_pos hv]
  refine ⟨hchar, ?_⟩
  intro p hp
  unfold process_paths at hp
  dsimp only at hp
  by_cases hemp : (filteredPaths ops edges).length = 0
  · rw [if_pos hemp] at hp
    rw [List.mem_singleton] at hp
    subst hp
    exact hfb
  · rw [if_neg hemp] at hp
    obtain ⟨e, he, h1, h2, hpe, hv⟩ := (hchar p).mp hp
    exact hv

/-- Witness for C9: one proper two-point edge and one degenerate one-point
edge; the filter keeps exactly the simplification of the former. -/
theorem C9_path_filter_characterisation_witness :
    (∀ p, p ∈ filteredPaths cOps [CGeom.line [(0,0), (3,3)], CGeom.line [(7,7)]] ↔
      ∃ e ∈ [CGeom.line [(0,0), (3,3)], CGeom.line [(7,7)]],
        cOps.isLineString e = true ∧ 2 ≤ cOps.coordsLen e ∧
        p = cOps.simplify e 1 ∧ cOps.is_valid p = true) ∧
    (∀ p ∈ process_paths cOps (some [CGeom.line [(0,0), (3,3)], CGeom.line [(7,7)]]),
      cOps.is_valid p = true) :=
  C9_path_filter_characterisation cOps
    [CGeom.line [(0,0), (3,3)], CGeom.line [(7,7)]] rfl

/-- Claim C1 (amended): for any non-empty footprint collection the buildings
branch returns exactly one polygon, and under the shapely validity contracts
(the zero-buffer repairs, simplification preserves validity) that polygon is
topologically valid; its area is bounded by the union's area provided the
simplification and repair steps never increase area — a proviso that the
library's Douglas-Peucker simplification violates (see the
counterexample). -/
theorem C1_one_valid_polygon_conditional_area {G : Type} (ops : GeomOps G)
    (hrep : BufferRepairs ops) (hpv : SimplifyPreservesValidity ops)
    (buildings : List G) (hne : buildings ≠ []) :
    ops.is_valid (process_buildings ops buildings) = true ∧
    (SimplifyAreaLe ops → BufferAreaLe ops → PartsAreaLe ops →
      ops.area (process_buildings ops buildings) ≤
        ops.area (ops.unary_union buildings)) := by
  have hlen : ¬ buildings.length = 0 := by
    simpa [List.length_eq_zero] using hne
  have hform : process_buildings ops buildings =
      ops.simplify
        (if ¬ ops.is_valid
              (if ops.isMultiPolygon (ops.unary_union buildings) then
                selectDominant ops (ops.unary_union buildings)
              else ops.unary_union buildings) then
          ops.buffer0
            (if ops.isMultiPolygon (ops.unary_union buildings) then
              selectDominant ops (ops.unary_union buildings)
            else ops.unary_union buildings)
        else
          (if ops.isMultiPolygon (ops.unary_union buildings) then
            selectDominant ops (ops.unary_union buildings)
          else ops.unary_union buildings)) 2 := by
    unfold process_buildings
    rw [if_neg hlen]
  rw [hform]
  constructor
  · exact cleanStep_valid ops hrep hpv _
  · intro hsa hba hparts
    refine le_trans (cleanStep_area_le ops hsa hba _) ?_
    by_cases hmp : ops.isMultiPolygon (ops.unary_union buildings) = true
    · rw [if_pos hmp]
      exact selectDominant_area_le ops hparts _
    · rw [if_neg hmp]

/-- Witness for C1 (amended): the identity-simplification instance satisfies
all contracts, and the pentagon input gives a valid output of area at most
the union's. -/
theorem C1_one_valid_polygon_conditional_area_witness :
    idOps.is_valid (process_buildings idOps [dentedPentagon]) = true ∧
    (SimplifyAreaLe idOps → BufferAreaLe idOps → PartsAreaLe idOps →
      idOps.area (process_buildings idOps [dentedPentagon]) ≤
        idOps.area (idOps.unary_union [dentedPentagon])) :=
  C1_one_valid_polygon_conditional_area idOps (fun _ => rfl) (fun _ _ h => h)
    [dentedPentagon] (by decide)

/-- Counterexample to claim C1 as stated: the single, valid, concave
footprint `dentedPentagon` has area 95 and is its own union; shapely's
Douglas-Peucker simplification with tolerance 2.0 removes the concave vertex
(5,9), returning the enclosing square of area 100, so the consolidated
footprint's area exceeds the union area of the inputs and the claimed bound
fails. -/
theorem C1_area_bound_counterexample :
    cOps.is_valid (process_buildings cOps [dentedPentagon]) = true ∧
    cOps.unary_union [dentedPentagon] = dentedPentagon ∧
    process_buildings cOps [dentedPentagon]
      = CGeom.poly [(0,0), (10,0), (10,10), (0,10)] ∧
    cOps.area (cOps.unary_union [dentedPentagon]) = 95 ∧
    cOps.area (process_buildings cOps [dentedPentagon]) = 100 ∧
    ¬ (cOps.area (process_buildings cOps [dentedPentagon]) ≤
        cOps.area (cOps.unary_union [dentedPentagon])) := by
  with_unfolding_all decide
